import Mathlib

/-!
Verification of the shape-algebra optimizer and the sort/order iterators of the
Cayley query core, shallowly embedded from the Go sources (`graph/shape`,
`graph/iterator`).  Machine integers of the source are modelled as `Nat`/`Int`
(no overflow is relevant to any statement below), Go panics as `Except.error`,
and Go `nil` interface values of type `Shape` as the `Shape.null` constructor
(`IsNull` in the source treats both alike); the one place where the source
distinguishes a nil `Shape` from the `Null{}` struct — the `All` field of
`Except` and the `Values` field of `QuadFilter` — is modelled with `Option`.
The `Filter`, `Regexp` and `Count` shape variants are outside the modelled
fragment: no claim under verification touches them, and in the optimizer and
builder they interact with the rest only through their own `Optimize`/
`BuildIterator` methods.
-/

set_option linter.unusedVariables false
set_option maxRecDepth 4096

namespace CayleyShape

/-- Backend reference (`graph.Value`): an opaque handle minted by the quad
store, identifying a stored node or quad.  Modelled as a natural number. -/
abbrev Ref := Nat

/-- Quad value (`quad.Value`), modelled by its string rendering (`String()`),
which is the only aspect of a value the code under verification inspects. -/
abbrev Val := String

/-- `quad.Direction`: Subject, Predicate, Object, Label, plus the pre-binding
placeholder Any. -/
inductive Direction where
  | subject
  | predicate
  | object
  | label
  | any
deriving DecidableEq

/-- The storage backend (`graph.QuadStore`), restricted to the capabilities the
shape compiler and the iterators use.  `dirOf` is `QuadDirection(ref, dir)`,
`valueOf` is `ValueOf` (`none` when the value is absent), `nameOf` is `NameOf`
composed with `String()`. -/
structure Backend where
  nodes : List Ref
  quads : List Ref
  dirOf : Ref → Direction → Ref
  valueOf : Val → Option Ref
  nameOf : Ref → Val

/-- The shape algebra of `graph/shape` (one constructor per Go shape type).
`null` stands both for the `Null` struct and for a nil Go `Shape` interface
value (the source's `IsNull` treats them alike).  `except`'s second field is
the `All` field, `Option` because the Go field may be a nil interface (meaning
"all nodes" at build time).  A quad filter's `Values` may likewise be nil.
`quadsAct`'s two Go maps are modelled as association lists in insertion
order. -/
inductive Shape where
  | null
  | allNodes
  | fixed (refs : List Ref)
  | lookup (values : List Val)
  | intersect (children : List Shape)
  | union (children : List Shape)
  | except (nodes : Shape) (all : Option Shape)
  | save (From : Shape) (tags : List String)
  | optional (From : Shape)
  | unique (From : Shape)
  | page (From : Shape) (skip limit : Int)
  | quads (filters : List (Direction × Option Shape))
  | quadDirection (dir : Direction) (q : Shape)
  | quadsAct (result : Direction) (sav : List (Direction × List String)) (filt : List (Direction × Ref))

namespace Shape

/-- `IsNull`: the shape is nil or the `Null` struct. -/
def IsNull : Shape → Bool
  | .null => true
  | _ => false

end Shape

/-- `One`: recognise a `Fixed` holding exactly one ref. -/
def One : Shape → Option Ref
  | .fixed [v] => some v
  | _ => none

/-- `Lookup.resolve`: resolve each value through the backend, dropping
unresolved ones; when nothing resolves the result is Null (nil in Go). -/
def lookupResolve (b : Backend) (vals : List Val) : Shape :=
  let rs := vals.filterMap b.valueOf
  if rs = [] then .null else .fixed rs

/-- The body of `Quads.Optimize`: optimize each filter's values (`nil` values
are skipped, a values shape that optimizes to Null makes the whole `Quads`
Null, signalled here by `none`).  The boolean is the changed flag (`nq != nil`
in the source: some filter was actually replaced). -/
def quadsOptimizeList (opt : Shape → Shape × Bool) :
    List (Direction × Option Shape) → Option (List (Direction × Option Shape) × Bool)
  | [] => some ([], false)
  | (d, vs) :: rest =>
    match vs with
    | none => (quadsOptimizeList opt rest).map fun p => ((d, none) :: p.1, p.2)
    | some v =>
      let r := opt v
      if !r.2 then
        (quadsOptimizeList opt rest).map fun p => ((d, some v) :: p.1, p.2)
      else if r.1.IsNull then none
      else (quadsOptimizeList opt rest).map fun p => ((d, some r.1) :: p.1, true)

/-- First pass of `Intersect.Optimize`: optimize all children left to right;
`none` when a child is, or optimizes to, Null (the whole intersection is
Null).  The boolean is the accumulated changed flag. -/
def intersectPass1 (opt : Shape → Shape × Bool) : List Shape → Option (List Shape × Bool)
  | [] => some ([], false)
  | c :: rest =>
    if c.IsNull then none
    else
      let r := opt c
      if !r.2 then (intersectPass1 opt rest).map fun p => (c :: p.1, p.2)
      else if r.1.IsNull then none
      else (intersectPass1 opt rest).map fun p => (r.1 :: p.1, true)

/-- Accumulator of the second pass of `Intersect.Optimize`: children kept in
place, the merged `Quads` filters (if any `Quads` child was seen), the
concatenated refs of all `Fixed` children, and the changed flag. -/
structure IPass2 where
  kept : List Shape
  quadsAcc : Option (List (Direction × Option Shape))
  fixedAcc : List Ref
  changed : Bool

/-- Second pass of `Intersect.Optimize` (lines 446-466): remove `AllNodes`,
collect and merge `Quads` children, concatenate `Fixed` children, splice the
children of nested `Intersect`s back onto the end of the worklist.  Everything
else stays in place. -/
def intersectPass2 : List Shape → IPass2 → IPass2
  | [], st => st
  | c :: rest, st =>
    match c with
    | .allNodes => intersectPass2 rest { st with changed := true }
    | .quads q =>
      match st.quadsAcc with
      | none => intersectPass2 rest { st with quadsAcc := some q }
      | some q0 => intersectPass2 rest { st with quadsAcc := some (q0 ++ q), changed := true }
    | .fixed l => intersectPass2 rest { st with fixedAcc := st.fixedAcc ++ l, changed := true }
    | .intersect cs => intersectPass2 (rest ++ cs) { st with changed := true }
    | c => intersectPass2 rest { st with kept := st.kept ++ [c] }
termination_by l _ => sizeOf l
decreasing_by
  all_goals simp_all
  · have h : ∀ l₁ : List Shape, sizeOf (l₁ ++ cs) + 1 = sizeOf l₁ + sizeOf cs := by
      intro l₁
      induction l₁ with
      | nil => simp; omega
      | cons a l ih => simp [ih]; omega
    have h2 := h rest
    omega

/-- The tail of `Intersect.Optimize` (lines 467-486): append the re-optimized
merged `Quads` (already handled by the caller), put the merged `Fixed` first,
then collapse by length. -/
def finishIntersect (kept : List Shape) (quadsShape : Option Shape) (fixedAcc : List Ref)
    (chg : Bool) : Shape × Bool :=
  let s1 := kept ++ (match quadsShape with | some q => [q] | none => [])
  let s2 := if fixedAcc = [] then s1 else .fixed fixedAcc :: s1
  match s2 with
  | [] => (.null, true)
  | [x] => (x, true)
  | _ => (.intersect s2, chg)

/-- First pass of `Union.Optimize`: optimize every child in place (a child that
optimizes to Null is stored as Null). -/
def unionPass1 (opt : Shape → Shape × Bool) : List Shape → List Shape × Bool
  | [] => ([], false)
  | c :: rest =>
    let r := opt c
    let p := unionPass1 opt rest
    if r.2 then (r.1 :: p.1, true) else (c :: p.1, p.2)

/-- Second pass of `Union.Optimize`: remove Null children.  Mirrors the Go
loop exactly, including its index behaviour: after a removal the element that
slides into the removed slot is not examined (it stays, whatever it is). -/
def unionPass2 : List Shape → List Shape × Bool
  | [] => ([], false)
  | c :: rest =>
    if c.IsNull then
      match rest with
      | [] => ([], true)
      | d :: rest2 => ((d :: (unionPass2 rest2).1), true)
    else
      let p := unionPass2 rest
      (c :: p.1, p.2)

/-- Assoc-list update mirroring `save[dir] = append(save[dir], tags...)` on the
Go map. -/
def saveUpdate : List (Direction × List String) → Direction → List String → List (Direction × List String)
  | [], d, tags => [(d, tags)]
  | (d0, ts) :: rest, d, tags =>
    if d0 = d then (d0, ts ++ tags) :: rest else (d0, ts) :: saveUpdate rest d tags

/-- The collection loop of `QuadDirection.Optimize` (lines 278-302): walk the
filters gathering constant (singleton `Fixed`) filters into the filter map and
`Save{AllNodes,...}` filters into the save map, counting matches.  `none` when
two constant filters share a direction (the source returns early). -/
def qdaScanAux (filt : List (Direction × Ref)) (sav : List (Direction × List String)) (n : Nat) :
    List (Direction × Option Shape) →
    Option (List (Direction × Ref) × List (Direction × List String) × Nat)
  | [] => some (filt, sav, n)
  | (d, vs) :: rest =>
    match vs.bind One with
    | some v =>
      if filt.any (fun p => p.1 == d) then none
      else qdaScanAux (filt ++ [(d, v)]) sav (n + 1) rest
    | none =>
      match vs with
      | some (.save .allNodes tags) => qdaScanAux filt (saveUpdate sav d tags) (n + 1) rest
      | _ => qdaScanAux filt sav n rest

/-- The per-variant optimizer `Optimize(qs)` of `graph/shape`, exactly as in
the source.  `fuel` bounds the recursion depth (the Go recursion terminates on
the call tree; Lean needs an explicit bound because `Intersect.Optimize`
re-optimizes the merged `Quads`, which is not a subterm).  At fuel `0` the
shape is returned unchanged with flag `false`; every theorem below supplies
enough fuel that this artificial case is never reached, so the modelled value
is the Go value. -/
def optimizeF (b : Backend) : Nat → Shape → Shape × Bool
  | 0, s => (s, false)
  | _ + 1, .null => (.null, true)
  | _ + 1, .allNodes => (.allNodes, false)
  | _ + 1, .fixed refs => if refs = [] then (.null, true) else (.fixed refs, false)
  | _ + 1, .lookup vals => (lookupResolve b vals, true)
  | f + 1, .save From tags =>
    if From.IsNull then (.null, true)
    else
      let r := optimizeF b f From
      let From2 := if r.2 then r.1 else From
      if tags = [] then (From2, true) else (.save From2 tags, r.2)
  | f + 1, .optional From =>
    if From.IsNull then (.null, true)
    else
      let r := optimizeF b f From
      if r.1.IsNull then (.null, true) else (.optional r.1, r.2)
  | f + 1, .unique From =>
    if From.IsNull then (.null, true)
    else
      let r := optimizeF b f From
      if r.1.IsNull then (.null, true) else (.unique r.1, r.2)
  | f + 1, .page From skip limit =>
    if From.IsNull then (.null, true)
    else
      let r := optimizeF b f From
      let From2 := if r.2 then r.1 else From
      if skip ≤ 0 ∧ limit ≤ 0 then (From2, true) else (.page From2 skip limit, false)
  | f + 1, .except nodes all =>
    let r := optimizeF b f nodes
    let nodes2 := if r.2 then r.1 else nodes
    let allRes :=
      match all with
      | none => (none, r.2)
      | some a =>
        let ra := optimizeF b f a
        (if ra.2 then (match ra.1 with | .null => none | a2 => some a2) else some a,
         r.2 || ra.2)
    if nodes2.IsNull then (.allNodes, true)
    else
      match nodes2 with
      | .allNodes => (.null, true)
      | _ => (.except nodes2 allRes.1, allRes.2)
  | f + 1, .quads filters =>
    match quadsOptimizeList (optimizeF b f) filters with
    | none => (.null, true)
    | some (l, c) => (.quads l, c)
  | f + 1, .quadDirection dir q =>
    if q.IsNull then (.null, true)
    else
      let r := optimizeF b f q
      let qd := if r.2 then r.1 else q
      match qd with
      | .quads l =>
        match l with
        | [(d1, vs)] =>
          if d1 = dir then
            match vs with
            | some v => (v, true)
            | none => (.null, true)
          else
            match qdaScanAux [] [] 0 l with
            | none => (.quadDirection dir (.quads l), r.2)
            | some (filt, sav, n) =>
              if n = l.length then (.quadsAct dir sav filt, true)
              else (.quadDirection dir (.quads l), r.2)
        | _ =>
          match qdaScanAux [] [] 0 l with
          | none => (.quadDirection dir (.quads l), r.2)
          | some (filt, sav, n) =>
            if n = l.length then (.quadsAct dir sav filt, true)
            else (.quadDirection dir (.quads l), r.2)
      | qd => (.quadDirection dir qd, r.2)
  | _ + 1, .quadsAct result sav filt => (.quadsAct result sav filt, false)
  | f + 1, .intersect children =>
    match intersectPass1 (optimizeF b f) children with
    | none => (.null, true)
    | some (l1, ch1) =>
      let st := intersectPass2 l1 ⟨[], none, [], false⟩
      match st.quadsAcc with
      | some q =>
        match quadsOptimizeList (optimizeF b f) q with
        | none => (.null, true)
        | some (q2, qch) =>
          finishIntersect st.kept (some (.quads q2)) st.fixedAcc (ch1 || st.changed || qch)
      | none => finishIntersect st.kept none st.fixedAcc (ch1 || st.changed)
  | f + 1, .union children =>
    let p1 := unionPass1 (optimizeF b f) children
    let p2 := unionPass2 p1.1
    match p2.1 with
    | [] => (.null, true)
    | [x] => (x, true)
    | l => (.union l, p1.2 || p2.2)

end CayleyShape


namespace CayleyShape

/-- The iterator trees the shape compiler produces (`graph/iterator`).
`taggerIt` models `it.Tagger().Add(tags...)` as performed by
`Save.BuildIterator`; `quadIt` is the backend's direction-indexed
`QuadIterator`, `notIt prim all` is `NewNot(prim, all)`. -/
inductive It where
  | nullIt
  | fixedIt (refs : List Ref)
  | allNodesIt
  | quadsAllIt
  | quadIt (d : Direction) (v : Ref)
  | andIt (sub : List It)
  | orIt (sub : List It)
  | notIt (prim all : It)
  | linksToIt (sub : It) (d : Direction)
  | hasAIt (sub : It) (d : Direction)
  | uniqueIt (sub : It)
  | skipIt (sub : It) (n : Int)
  | limitIt (sub : It) (n : Int)
  | optionalIt (sub : It)
  | taggerIt (sub : It) (tags : List String)

/-- The per-filter iterators of the tree `QuadsAct.BuildIterator` reconstructs:
a `Fixed{v}` filter becomes a direction-index iterator, a `Save{AllNodes, tags}`
filter becomes a LinksTo over the (tagged) all-nodes iterator.  This is
`QuadFilter.buildIterator` specialised to the two value forms the
reconstruction produces (the reconstructed tree is not a subterm, so the
generic builder cannot be called on it); the theorem for claim C6 proves
agreement with the generic builder. -/
def rebuildSaveIts : List (Direction × List String) → Except String (List It)
  | [] => .ok []
  | p :: rest =>
    if p.1 = Direction.any then .error "direction is not set"
    else do
      let its ← rebuildSaveIts rest
      pure (It.linksToIt (if p.2 = [] then It.allNodesIt else .taggerIt .allNodesIt p.2) p.1
        :: its)

def rebuildIts (filt : List (Direction × Ref)) (sav : List (Direction × List String)) :
    Except String (List It) := do
  let sIts ← rebuildSaveIts sav
  pure (filt.map (fun p => It.quadIt p.1 p.2) ++ sIts)

mutual

/-- `BuildIterator` of each shape variant, as in the source; Go panics are
`Except.error`.  `Lookup.BuildIterator`'s call to the `Fixed` builder on the
resolved shape is inlined (the resolved shape is not a subterm), and so is
`QuadsAct.BuildIterator`'s rebuild (see `rebuildIts`). -/
def buildIterator (b : Backend) : Shape → Except String It
  | .null => .ok .nullIt
  | .allNodes => .ok .allNodesIt
  | .fixed refs => .ok (.fixedIt refs)
  | .lookup vals =>
    match lookupResolve b vals with
    | .fixed rs => .ok (.fixedIt rs)
    | _ => .ok .nullIt
  | .intersect children =>
    match children with
    | [] => .ok .nullIt
    | _ => do
      let subs ← buildShapeList b children
      match subs with
      | [x] => pure x
      | _ => pure (It.andIt subs)
  | .union children =>
    match children with
    | [] => .ok .nullIt
    | _ => do
      let subs ← buildShapeList b children
      match subs with
      | [x] => pure x
      | _ => pure (It.orIt subs)
  | .except nodes all => do
    let allIt ← match all with
      | some a => buildIterator b a
      | none => pure It.allNodesIt
    if nodes.IsNull then pure allIt
    else do
      let sub ← buildIterator b nodes
      pure (It.notIt sub allIt)
  | .save From tags =>
    if From.IsNull then .ok .nullIt
    else do
      let it ← buildIterator b From
      if tags = [] then pure it else pure (It.taggerIt it tags)
  | .optional From =>
    if From.IsNull then .ok .nullIt
    else do
      let it ← buildIterator b From
      pure (It.optionalIt it)
  | .unique From =>
    if From.IsNull then .ok .nullIt
    else do
      let it ← buildIterator b From
      pure (It.uniqueIt it)
  | .page From skip limit =>
    if From.IsNull then .ok .nullIt
    else do
      let it ← buildIterator b From
      let it1 := if skip > 0 then It.skipIt it skip else it
      pure (if limit > 0 then It.limitIt it1 limit else it1)
  | .quads filters =>
    match filters with
    | [] => .ok .quadsAllIt
    | _ => do
      let its ← buildFilterList b filters
      match its with
      | [x] => pure x
      | _ => pure (It.andIt its)
  | .quadDirection dir q =>
    if q.IsNull then .ok .nullIt
    else do
      let sub ← buildIterator b q
      if dir = .any then Except.error "direction is not set"
      else pure (It.hasAIt sub dir)
  | .quadsAct result sav filt => do
    let sub ← (match filt, sav with
      | [], [] => pure It.quadsAllIt
      | _, _ => do
        let its ← rebuildIts filt sav
        match its with
        | [x] => pure x
        | _ => pure (It.andIt its))
    if result = .any then Except.error "direction is not set"
    else pure (It.hasAIt sub result)

/-- `QuadFilter.buildIterator`: nil values give a Null iterator; a singleton
`Fixed` goes straight to the backend's direction index — with no check of the
direction; only otherwise does the `Any` panic fire, before the values
iterator is built and wrapped in a LinksTo. -/
def quadFilterBuild (b : Backend) (d : Direction) (vs : Option Shape) : Except String It :=
  match vs with
  | none => .ok .nullIt
  | some v =>
    match One v with
    | some r => .ok (.quadIt d r)
    | none =>
      if d = .any then Except.error "direction is not set"
      else do
        let sub ← buildIterator b v
        pure (It.linksToIt sub d)

/-- Builds the child iterators of an `Intersect`/`Union`, left to right. -/
def buildShapeList (b : Backend) : List Shape → Except String (List It)
  | [] => pure []
  | s :: rest => do
    let it ← buildIterator b s
    let its ← buildShapeList b rest
    pure (it :: its)

/-- Builds the per-filter iterators of a `Quads`, left to right. -/
def buildFilterList (b : Backend) : List (Direction × Option Shape) → Except String (List It)
  | [] => pure []
  | p :: rest => do
    let it ← quadFilterBuild b p.1 p.2
    let its ← buildFilterList b rest
    pure (it :: its)

end

end CayleyShape

namespace CayleyShape

/-- Tag bindings carried by one result (the `map[string]graph.Value` filled by
`TagResults`), as an association list in write order. -/
abbrev TagMap := List (String × Ref)

mutual

/-- `Contains`, together with the tag bindings the iterator contributes for
the given ref after a successful membership test (`none`: not contained).
Per variant this follows the corresponding `graph/iterator` implementation:
And checks every child in order; Or stops at the first child containing the
ref; Not succeeds when the primary does not contain the ref; LinksTo projects
the candidate quad and asks its subiterator; HasA walks the backend's
direction index for the candidate node and asks its subiterator for each
quad; Skip/Limit/Unique delegate; Optional always succeeds. -/
def containsTags (b : Backend) : It → Ref → Option TagMap
  | .nullIt, _ => none
  | .fixedIt refs, r => if r ∈ refs then some [] else none
  | .allNodesIt, r => if r ∈ b.nodes then some [] else none
  | .quadsAllIt, r => if r ∈ b.quads then some [] else none
  | .quadIt d v, r => if r ∈ b.quads ∧ b.dirOf r d = v then some [] else none
  | .andIt subs, r => allContains b subs r
  | .orIt subs, r => firstContains b subs r
  | .notIt prim allI, r =>
    match containsTags b prim r with
    | some _ => none
    | none => some []
  | .linksToIt sub d, r => containsTags b sub (b.dirOf r d)
  | .hasAIt sub d, r =>
    b.quads.findSome? fun q => if b.dirOf q d = r then containsTags b sub q else none
  | .uniqueIt sub, r => containsTags b sub r
  | .skipIt sub _, r => containsTags b sub r
  | .limitIt sub _, r => containsTags b sub r
  | .optionalIt sub, r => some ((containsTags b sub r).getD [])
  | .taggerIt sub tags, r =>
    (containsTags b sub r).map fun m => m ++ tags.map fun t => (t, r)

/-- All children contain the ref; tag contributions concatenated in child
order. -/
def allContains (b : Backend) : List It → Ref → Option TagMap
  | [], _ => some []
  | i :: rest, r =>
    match containsTags b i r with
    | none => none
    | some m => (allContains b rest r).map fun ms => m ++ ms

/-- First child containing the ref wins. -/
def firstContains (b : Backend) : List It → Ref → Option TagMap
  | [], _ => none
  | i :: rest, r =>
    match containsTags b i r with
    | some m => some m
    | none => firstContains b rest r

end

/-- `Unique`: drop results whose ref was already seen. -/
def dedupFirst : List (Ref × TagMap) → List Ref → List (Ref × TagMap)
  | [], _ => []
  | x :: rest, seen =>
    if x.1 ∈ seen then dedupFirst rest seen else x :: dedupFirst rest (x.1 :: seen)

mutual

/-- The full scan of an iterator: the (ref, tag bindings) pairs successive
`Next`/`TagResults` calls produce, in order.  And scans its first child (the
primary) and filters through `Contains` of the rest, merging their tag
contributions; Or concatenates its children's scans; Not scans its `all` side
dropping refs the primary contains; LinksTo emits, for every subresult, every
quad of the backend's direction index at that subresult; HasA projects every
quad of its subiterator to the requested direction. -/
def scanIt (b : Backend) : It → List (Ref × TagMap)
  | .nullIt => []
  | .fixedIt refs => refs.map fun r => (r, [])
  | .allNodesIt => b.nodes.map fun r => (r, [])
  | .quadsAllIt => b.quads.map fun r => (r, [])
  | .quadIt d v => (b.quads.filter fun q => b.dirOf q d = v).map fun q => (q, [])
  | .andIt subs =>
    match subs with
    | [] => []
    | p :: rest =>
      (scanIt b p).filterMap fun x => (allContains b rest x.1).map fun ms => (x.1, x.2 ++ ms)
  | .orIt subs => scanList b subs
  | .notIt prim allI => (scanIt b allI).filter fun x => (containsTags b prim x.1).isNone
  | .linksToIt sub d =>
    (scanIt b sub).flatMap fun x =>
      (b.quads.filter fun q => b.dirOf q d = x.1).map fun q => (q, x.2)
  | .hasAIt sub d => (scanIt b sub).map fun x => (b.dirOf x.1 d, x.2)
  | .uniqueIt sub => dedupFirst (scanIt b sub) []
  | .skipIt sub n => (scanIt b sub).drop n.toNat
  | .limitIt sub n => (scanIt b sub).take n.toNat
  | .optionalIt _ => []
  | .taggerIt sub tags =>
    (scanIt b sub).map fun x => (x.1, x.2 ++ tags.map fun t => (t, x.1))

/-- Scans of a list of iterators, concatenated (Or yields each child in
turn). -/
def scanList (b : Backend) : List It → List (Ref × TagMap)
  | [] => []
  | i :: rest => scanIt b i ++ scanList b rest

end

/-- `scan(build(s, b))` of the specification: `none` when building panics. -/
def buildScan (b : Backend) (s : Shape) : Option (List (Ref × TagMap)) :=
  (buildIterator b s).toOption.map (scanIt b)

end CayleyShape

namespace CayleyShape

/-- Insertion step of the model of `sort.Sort`. -/
def insertByKey {α : Type} (key : α → String) (x : α) : List α → List α
  | [] => [x]
  | y :: rest => if key x < key y then x :: y :: rest else y :: insertByKey key x rest

/-- `sort.Sort` with `Less(i, j) = str(i) < str(j)`, modelled as insertion
sort.  Go's sort is an unstable in-place sort; any permutation that is
non-decreasing on the key is an admissible model, and the claims only use
sortedness and the multiset of elements. -/
def sortByKey {α : Type} (key : α → String) : List α → List α
  | [] => []
  | x :: rest => insertByKey key x (sortByKey key rest)

/-- A scan-mode subiterator feeding the Sort/Order iterators: `results` are
the (id, tag-binding) pairs successive `Next`/`TagResults` calls produce, and
`errAt = some (k, e)` means the backend error `e` is observable through
`Err()` once `k` results have been yielded (`k < length results` models an
error reported while `Next` still returns true — the case the legacy
`getSortedValues` checks inside its loop; `k = length results` an error
reported at the end of the scan). -/
structure SubIt where
  results : List (Ref × TagMap)
  errAt : Option (Nat × String)

/-- The error visible through `Err()` once `i` results have been yielded. -/
def errAfter (errAt : Option (Nat × String)) (i : Nat) : Option String :=
  match errAt with
  | some (k, e) => if k ≤ i then some e else none
  | none => none

/-- `getSortedValues` of `src/graph/iterator/sort.go`: drain the subiterator,
checking `Err()` after each append — on an error the partial buffer is
returned unsorted (and the error with it); an error only observable after the
loop ends is never checked and is lost; otherwise `sort.Sort` orders the
buffer by the value-string key.  `i` counts the results yielded so far, `acc`
is the buffer. -/
def legacyCollect (key : Ref × TagMap → String) (errAt : Option (Nat × String))
    (acc : List (Ref × TagMap)) (i : Nat) :
    List (Ref × TagMap) → List (Ref × TagMap) × Option String
  | [] => (sortByKey key acc, none)
  | x :: rest =>
    match errAfter errAt (i + 1) with
    | some e => (acc ++ [x], some e)
    | none => legacyCollect key errAt (acc ++ [x]) (i + 1) rest

def getSortedValuesLegacy (b : Backend) (sub : SubIt) : List (Ref × TagMap) × Option String :=
  legacyCollect (fun x => b.nameOf x.1) sub.errAt [] 0 sub.results

/-- State of the legacy `Sort` iterator: the materialized buffer (`none`
before the first `Next`), the latched error, and the yield index. -/
structure SortState where
  ordered : Option (List (Ref × TagMap))
  err : Option String
  index : Nat

def sortInit : SortState := ⟨none, none, 0⟩

/-- `Sort.Next` of `src/graph/iterator/sort.go`: materialize on the first call
(latching any error), then yield the buffer — with no check of the latched
error, so buffered results are still yielded after an error. -/
def sortStepLegacy (b : Backend) (sub : SubIt) (st : SortState) :
    Option (Ref × TagMap) × SortState :=
  let st1 :=
    match st.ordered with
    | some _ => st
    | none =>
      let r := getSortedValuesLegacy b sub
      { st with ordered := some r.1, err := r.2 }
  match st1.ordered with
  | some v =>
    if st1.index < v.length then
      (some (v.getD st1.index (0, [])), { st1 with index := st1.index + 1 })
    else (none, st1)
  | none => (none, st1)

/-- Run a step function until it reports exhaustion (or the step budget, kept
above the buffer length by every use below, runs out), collecting the yielded
elements. -/
def drainSteps {σ α : Type} (step : σ → Option α × σ) : Nat → σ → List α
  | 0, _ => []
  | f + 1, st =>
    match step st with
    | (some x, st2) => x :: drainSteps step f st2
    | (none, _) => []

/-- The full scan of the legacy Sort iterator. -/
def sortScanLegacy (b : Backend) (sub : SubIt) : List (Ref × TagMap) :=
  drainSteps (sortStepLegacy b sub) (sub.results.length + 1) sortInit

/-- `getSortedValues` of the Scanner-based sort iterator (part_006): drain
everything, then check `Err()` once after the loop — on an error the unsorted
buffer is returned together with the error (the caller then yields nothing);
otherwise the sorted buffer.  Alternative `NextPath` bindings are not
modelled (the modelled subiterator enumerates none). -/
def getSortedValuesNew (b : Backend) (sub : SubIt) : List (Ref × TagMap) × Option String :=
  match errAfter sub.errAt sub.results.length with
  | some e => (sub.results, some e)
  | none => (sortByKey (fun x => b.nameOf x.1) sub.results, none)

/-- State of the Scanner-based `sortNext` iterator. -/
structure SortNextState where
  ordered : Option (List (Ref × TagMap))
  err : Option String
  index : Nat
  pathIndex : Int

def sortNextInit : SortNextState := ⟨none, none, 0, -1⟩

/-- The yield step shared by the branches of `sortNext.Next` (lines 121-127 of
part_006). -/
def sortNextAdvance (st : SortNextState) : Option (Ref × TagMap) × SortNextState :=
  match st.ordered with
  | some v =>
    if st.index < v.length then
      (some (v.getD st.index (0, [])), { st with index := st.index + 1, pathIndex := -1 })
    else (none, st)
  | none => (none, st)

/-- `sortNext.Next` of part_006: a latched error makes the call return `false`
immediately, leaving the state (and hence the subiterator) untouched; on the
first call the buffer is materialized and a fresh error also returns
`false`. -/
def sortNextStep (b : Backend) (sub : SubIt) (st : SortNextState) :
    Option (Ref × TagMap) × SortNextState :=
  match st.err with
  | some _ => (none, st)
  | none =>
    match st.ordered with
    | none =>
      let r := getSortedValuesNew b sub
      let st1 := { st with ordered := some r.1, err := r.2 }
      match r.2 with
      | some _ => (none, st1)
      | none => sortNextAdvance st1
    | some _ => sortNextAdvance st

/-- `getOrderedValues` of `src/graph/iterator/order.go`: drain the subiterator
with its tag maps and sort by the value-string key (there is no error
handling in this collection loop). -/
def getOrderedValues (b : Backend) (sub : SubIt) : List (Ref × TagMap) :=
  sortByKey (fun x => b.nameOf x.1) sub.results

/-- State of the `Order` iterator: the buffer is materialized in `NewOrder`,
before the first `Next`. -/
structure OrderState where
  ordered : List (Ref × TagMap)
  index : Nat

/-- `Order.Next` of `src/graph/iterator/order.go`: pre-increments the index
and only then reads the buffer, so the first sorted element (index 0) is
never yielded; it succeeds while `index < len - 1`. -/
def orderStep (st : OrderState) : Option (Ref × TagMap) × OrderState :=
  if st.index < st.ordered.length - 1 then
    (some (st.ordered.getD (st.index + 1) (0, [])), { st with index := st.index + 1 })
  else (none, st)

/-- The full scan of the Order iterator. -/
def orderScan (b : Backend) (sub : SubIt) : List (Ref × TagMap) :=
  drainSteps orderStep (sub.results.length + 1) ⟨getOrderedValues b sub, 0⟩

end CayleyShape

namespace CayleyShape

/-- Concrete backend used by the closed statements: three nodes, no quads, an
empty value index, a constant name table. -/
def b0 : Backend where
  nodes := [1, 2, 3]
  quads := []
  dirOf := fun _ _ => 0
  valueOf := fun _ => none
  nameOf := fun _ => ""

/-- Concrete backend whose name table orders ref 1 after ref 2, for the
sort-iterator witnesses. -/
def bNames : Backend where
  nodes := [1, 2]
  quads := []
  dirOf := fun _ _ => 0
  valueOf := fun _ => none
  nameOf := fun r => if r = 1 then "b" else "a"

/-- A constant filter entry of the fused form: `QuadFilter{dir, Fixed{v}}`. -/
def fixedEntry (p : Direction × Ref) : Direction × Option Shape :=
  (p.1, some (.fixed [p.2]))

/-- A tag-save filter entry of the fused form: `QuadFilter{dir,
Save{AllNodes, tags}}`. -/
def saveEntry (p : Direction × List String) : Direction × Option Shape :=
  (p.1, some (.save .allNodes p.2))

/-- The explicit `QuadDirection`-over-`Quads` filter list that quad fusion
consumes and that `QuadsAct.BuildIterator` reconstructs: all constant filters
first, then the tag-save filters. -/
def quadFusionList (fs : List (Direction × Ref)) (ss : List (Direction × List String)) :
    List (Direction × Option Shape) :=
  fs.map fixedEntry ++ ss.map saveEntry

/-- The erroring subiterator of the C8 counterexample: three results, with
the backend error observable after the second one is yielded. -/
def subErr : SubIt := ⟨[(1, []), (2, []), (3, [])], some (2, "backend failure")⟩

/-- Concrete backend resolving the IRIs of the repository's
`TestOptimize` lookup case. -/
def bLookup : Backend where
  nodes := []
  quads := []
  dirOf := fun _ _ => 0
  valueOf := fun v => if v = "bob" then some 1 else if v = "alice" then some 2 else none
  nameOf := fun _ => ""

/-! Theorems.  General lemmas first, then one theorem per claim (with its
counterexample and witness where applicable), in claim order. -/

theorem optimizeF_allNodes (b : Backend) : ∀ f, optimizeF b f .allNodes = (.allNodes, false)
  | 0 => rfl
  | f + 1 => rfl

theorem optimizeF_fixed (b : Backend) {a : List Ref} (ha : a ≠ []) :
    ∀ f, optimizeF b f (.fixed a) = (.fixed a, false)
  | 0 => rfl
  | f + 1 => by simp [optimizeF, ha]

theorem optimizeF_save_allNodes (b : Backend) {tags : List String} (ht : tags ≠ []) :
    ∀ f, optimizeF b f (.save .allNodes tags) = (.save .allNodes tags, false)
  | 0 => rfl
  | f + 1 => by simp [optimizeF, Shape.IsNull, optimizeF_allNodes, ht]

theorem IsNull_eq_false {x : Shape} (h : x ≠ .null) : x.IsNull = false := by
  cases x <;> simp_all [Shape.IsNull]

/-- Evaluation of `Intersect.Optimize` on `[Fixed a, Save{AllNodes, tags},
Fixed c]`: the two `Fixed` children are concatenated (not intersected) and
placed first. -/
theorem optimizeF_intersect_fsf (b : Backend) (f : Nat) {a c : List Ref} {tags : List String}
    (ha : a ≠ []) (hc : c ≠ []) (ht : tags ≠ []) :
    optimizeF b (f + 1) (.intersect [.fixed a, .save .allNodes tags, .fixed c])
      = (.intersect [.fixed (a ++ c), .save .allNodes tags], true) := by
  have hac : a ++ c ≠ [] := by simp [ha]
  simp [optimizeF, intersectPass1, optimizeF_fixed b ha, optimizeF_fixed b hc,
    optimizeF_save_allNodes b ht, Shape.IsNull, intersectPass2, finishIntersect, hac]

/-- Evaluation of `Intersect.Optimize` on `[Fixed d0, Save{AllNodes, tags}]`:
the shape is reproduced unchanged, but the changed flag stays `true` (the
`Fixed` child is removed and re-prepended on every run). -/
theorem optimizeF_intersect_fs (b : Backend) (f : Nat) {d0 : List Ref} {tags : List String}
    (hd : d0 ≠ []) (ht : tags ≠ []) :
    optimizeF b (f + 1) (.intersect [.fixed d0, .save .allNodes tags])
      = (.intersect [.fixed d0, .save .allNodes tags], true) := by
  simp [optimizeF, intersectPass1, optimizeF_fixed b hd,
    optimizeF_save_allNodes b ht, Shape.IsNull, intersectPass2, finishIntersect, hd]

end CayleyShape

namespace CayleyShape

/-- C1 (code bug): evaluation of the optimizer and of the scans at the failing
input.  `Intersect[Fixed[1], Fixed[2]]` — two Fixed children with disjoint
refs — is rewritten by `Intersect.Optimize` to `Fixed[1,2]` (concatenation,
per the `TODO: ... intersect Fixed` left in the source); scanning the
iterator built from the original shape yields the empty multiset, while
scanning the iterator built from the optimized shape yields {1, 2}, so
`scan(build(s, b)) == scan(build(optimize(s), b))` fails. -/
theorem c1_optimize_changes_scan :
    optimizeF b0 9 (.intersect [.fixed [1], .fixed [2]]) = (.fixed [1, 2], true)
    ∧ buildScan b0 (.intersect [.fixed [1], .fixed [2]]) = some []
    ∧ buildScan b0 (.fixed [1, 2]) = some [(1, []), (2, [])] := by
  refine ⟨?_, ?_, ?_⟩
  · simp [optimizeF, intersectPass1, intersectPass2, finishIntersect, Shape.IsNull]
  · simp [buildScan, buildIterator, buildShapeList, scanIt, allContains, containsTags,
      Except.toOption, Bind.bind, Except.bind, Pure.pure, Except.pure]
  · simp [buildScan, buildIterator, scanIt, Except.toOption]

/-- C2, counterexample: starting from `Intersect[Fixed[1], Save{AllNodes,[t]},
Fixed[2]]`, one optimization step gives `Intersect[Fixed[1,2],
Save{AllNodes,[t]}]`, and optimizing that again reports `changed = true` (not
`false` as the claim states): the `Fixed` child is removed and re-prepended on
every run. -/
theorem c2_counterexample :
    (optimizeF b0 9 (.intersect [.fixed [1], .save .allNodes ["t"], .fixed [2]])).1
      = .intersect [.fixed [1, 2], .save .allNodes ["t"]]
    ∧ (optimizeF b0 9
        ((optimizeF b0 9 (.intersect [.fixed [1], .save .allNodes ["t"], .fixed [2]])).1)).2
      = true := by
  constructor <;>
    simp [optimizeF, intersectPass1, intersectPass2, finishIntersect, Shape.IsNull]

/-- C2, amended: after one optimization step the *shape* is stable — a second
step returns the same shape — but the changed flag is not `false`: an
`Intersect` that retains a (nonempty) `Fixed` child reports `changed = true`
on every re-optimization, for every fuel and every backend. -/
theorem c2_shape_stable_flag_true (b : Backend) (f : Nat) {a c : List Ref} {tags : List String}
    (ha : a ≠ []) (hc : c ≠ []) (ht : tags ≠ []) :
    optimizeF b (f + 1)
        ((optimizeF b (f + 1) (.intersect [.fixed a, .save .allNodes tags, .fixed c])).1)
      = ((optimizeF b (f + 1) (.intersect [.fixed a, .save .allNodes tags, .fixed c])).1,
         true) := by
  rw [optimizeF_intersect_fsf b f ha hc ht]
  exact optimizeF_intersect_fs b f (by simp [ha]) ht

theorem c2_shape_stable_flag_true_witness :
    optimizeF b0 4 ((optimizeF b0 4 (.intersect [.fixed [1], .save .allNodes ["t"], .fixed [2]])).1)
      = ((optimizeF b0 4 (.intersect [.fixed [1], .save .allNodes ["t"], .fixed [2]])).1, true) :=
  c2_shape_stable_flag_true b0 3 (by simp) (by simp) (by simp)

/-- C3, counterexample: with the specification's field mapping (`Except{from,
exclude}` denotes `from` minus `exclude`, i.e. the Go fields `All` and
`Nodes`), optimizing `Except{from = Fixed[1], exclude = Null}` yields
`AllNodes` — the from-part is discarded, not returned — and optimizing
`Except{from = Null, exclude = Fixed[1]}` yields `Except{Fixed[1], nil}`, not
`AllNodes`. -/
theorem c3_counterexample :
    optimizeF b0 9 (.except .null (some (.fixed [1]))) = (.allNodes, true)
    ∧ Shape.allNodes ≠ .fixed [1]
    ∧ optimizeF b0 9 (.except (.fixed [1]) (some .null)) = (.except (.fixed [1]) none, true)
    ∧ Shape.except (.fixed [1]) none ≠ .allNodes := by
  refine ⟨?_, by simp, ?_, by simp⟩ <;> simp [optimizeF, Shape.IsNull]

/-- C3, amended: `Except.Optimize` keys on the exclude-part (`Nodes`), not the
from-part: a Null exclude-part yields `AllNodes` whatever the from-part; an
`AllNodes` exclude-part yields `Null`; and a Null *from*-part (`All`) is
merely rewritten to an absent from-part, the shape being otherwise kept. -/
theorem c3_except_optimize (b : Backend) :
    (∀ (f : Nat) (all : Option Shape), optimizeF b (f + 1) (.except .null all) = (.allNodes, true))
    ∧ (∀ (f : Nat) (all : Option Shape), optimizeF b (f + 1) (.except .allNodes all) = (.null, true))
    ∧ (∀ (f : Nat) (x : Shape), optimizeF b (f + 1) x = (x, false) → x ≠ .null → x ≠ .allNodes →
        optimizeF b (f + 2) (.except x (some .null)) = (.except x none, true)) := by
  refine ⟨?_, ?_, ?_⟩
  · intro f all
    rcases f with _ | g <;> rcases all with _ | a <;> simp [optimizeF, Shape.IsNull]
  · intro f all
    rcases all with _ | a <;> simp [optimizeF, optimizeF_allNodes, Shape.IsNull]
  · intro f x hx hnn hna
    have h1 : x.IsNull = false := IsNull_eq_false hnn
    simp only [optimizeF, hx, h1]
    rcases x <;> simp_all

theorem c3_except_optimize_witness :
    optimizeF b0 3 (.except .null (some (.fixed [7]))) = (.allNodes, true)
    ∧ optimizeF b0 3 (.except .allNodes none) = (.null, true)
    ∧ optimizeF b0 4 (.except (.fixed [7]) (some .null)) = (.except (.fixed [7]) none, true) :=
  ⟨(c3_except_optimize b0).1 2 (some (.fixed [7])),
   (c3_except_optimize b0).2.1 2 none,
   (c3_except_optimize b0).2.2 2 (.fixed [7]) (optimizeF_fixed b0 (by simp) 3)
     (fun h => Shape.noConfusion h) (fun h => Shape.noConfusion h)⟩

/-- C4, counterexample: optimizing `Intersect[Fixed[1], Save{AllNodes,[t]},
Fixed[2]]` — two Fixed children whose multiset intersection is empty — does
not yield `Null`: the merged Fixed holds the *concatenation* `[1, 2]` of the
refs. -/
theorem c4_counterexample :
    optimizeF b0 9 (.intersect [.fixed [1], .save .allNodes ["t"], .fixed [2]])
      = (.intersect [.fixed [1, 2], .save .allNodes ["t"]], true)
    ∧ Shape.intersect [.fixed [1, 2], .save .allNodes ["t"]] ≠ .null
    ∧ ([1, 2] : List Ref) ≠ [] := by
  refine ⟨?_, by simp, by simp⟩
  simp [optimizeF, intersectPass1, intersectPass2, finishIntersect, Shape.IsNull]

/-- C4, amended: all `Fixed` children of an `Intersect` are merged into a
single `Fixed` holding the *concatenation* of their refs in child order (not
the multiset intersection), and that `Fixed` is positioned as the first
child; the merged `Fixed` is never empty when a `Fixed` child exists, because
a `Fixed` child with no refs already collapses the whole intersection to
`Null` during child optimization, so no emptiness rule applies. -/
theorem c4_intersect_fixed_concat (b : Backend) (f : Nat) {a c : List Ref} {tags : List String}
    (ha : a ≠ []) (hc : c ≠ []) (ht : tags ≠ []) :
    optimizeF b (f + 1) (.intersect [.fixed a, .save .allNodes tags, .fixed c])
      = (.intersect [.fixed (a ++ c), .save .allNodes tags], true) :=
  optimizeF_intersect_fsf b f ha hc ht

theorem c4_intersect_fixed_concat_witness :
    optimizeF b0 4 (.intersect [.fixed [1], .save .allNodes ["t"], .fixed [2]])
      = (.intersect [.fixed [1, 2], .save .allNodes ["t"]], true) :=
  c4_intersect_fixed_concat b0 3 (by simp) (by simp) (by simp)

end CayleyShape

namespace CayleyShape

/-- C5 (confirmed): for every direction `d` and every optimization-stable
node-shape `x`, optimizing `QuadDirection(d, Quads([QuadFilter(d, x)]))`
yields exactly `x` (with changed = true): the tautological projection back to
the filtered direction is removed.  Stability of `x` (`optimize(x) = (x,
false)`) reflects the optimizer's children-first protocol — the rewrite fires
after the filter's values have been optimized. -/
theorem c5_hasA_linksTo_collapse (b : Backend) (f : Nat) (d : Direction) (x : Shape)
    (hx : optimizeF b f x = (x, false)) (hnn : x ≠ .null) :
    optimizeF b (f + 2) (.quadDirection d (.quads [(d, some x)])) = (x, true) := by
  simp [optimizeF, Shape.IsNull, quadsOptimizeList, hx]

theorem c5_hasA_linksTo_collapse_witness :
    optimizeF b0 5 (.quadDirection .subject (.quads [(.subject, some .allNodes)]))
      = (.allNodes, true) :=
  c5_hasA_linksTo_collapse b0 3 .subject .allNodes rfl (fun h => Shape.noConfusion h)

theorem quadsOptimizeList_stable (opt : Shape → Shape × Bool) :
    ∀ l, (∀ p ∈ l, ∀ v, p.2 = some v → opt v = (v, false)) →
      quadsOptimizeList opt l = some (l, false)
  | [], _ => rfl
  | (d, vs) :: rest, h => by
    have hrest :=
      quadsOptimizeList_stable opt rest (fun p hp => h p (List.mem_cons_of_mem _ hp))
    cases vs with
    | none => simp [quadsOptimizeList, hrest]
    | some v =>
      have hv := h (d, some v) (List.mem_cons_self _ _) v rfl
      simp [quadsOptimizeList, hv, hrest]

theorem fusion_values_stable (b : Backend) (f : Nat) (fs : List (Direction × Ref))
    (ss : List (Direction × List String)) (hts : ∀ p ∈ ss, p.2 ≠ ([] : List String)) :
    ∀ p ∈ quadFusionList fs ss, ∀ v, p.2 = some v → optimizeF b f v = (v, false) := by
  intro p hp v hv
  rcases List.mem_append.1 hp with hf | hs
  · obtain ⟨q, hq, rfl⟩ := List.mem_map.1 hf
    simp only [fixedEntry, Option.some.injEq] at hv
    subst hv
    exact optimizeF_fixed b (by simp) f
  · obtain ⟨q, hq, rfl⟩ := List.mem_map.1 hs
    simp only [saveEntry, Option.some.injEq] at hv
    subst hv
    exact optimizeF_save_allNodes b (hts q hq) f

theorem saveUpdate_fresh (d : Direction) (ts : List String) :
    ∀ sav, (∀ q ∈ sav, q.1 ≠ d) → saveUpdate sav d ts = sav ++ [(d, ts)]
  | [], _ => rfl
  | (d0, ts0) :: rest, h => by
    have hd0 : d0 ≠ d := h (d0, ts0) (List.mem_cons_self _ _)
    simp [saveUpdate, hd0,
      saveUpdate_fresh d ts rest (fun q hq => h q (List.mem_cons_of_mem _ hq))]

theorem qdaScanAux_fixed_phase :
    ∀ (fs acc : List (Direction × Ref)) (sav : List (Direction × List String)) (n : Nat)
      (tail : List (Direction × Option Shape)),
      (∀ p ∈ fs, ∀ q ∈ acc, p.1 ≠ q.1) → (fs.map Prod.fst).Nodup →
      qdaScanAux acc sav n (fs.map fixedEntry ++ tail)
        = qdaScanAux (acc ++ fs) sav (n + fs.length) tail
  | [], acc, sav, n, tail, _, _ => by simp
  | (d, v) :: fs', acc, sav, n, tail, hacc, hnd => by
    have hany : (acc.any fun p => p.1 == d) = false := by
      rw [List.any_eq_false]
      intro p hp
      simpa using (hacc (d, v) (List.mem_cons_self _ _) p hp).symm
    have hnd' : (fs'.map Prod.fst).Nodup := (List.nodup_cons.1 hnd).2
    have hdni : d ∉ fs'.map Prod.fst := (List.nodup_cons.1 hnd).1
    have hacc' : ∀ p ∈ fs', ∀ q ∈ acc ++ [(d, v)], p.1 ≠ q.1 := by
      intro p hp q hq
      rcases List.mem_append.1 hq with h1 | h2
      · exact hacc p (List.mem_cons_of_mem _ hp) q h1
      · rcases List.mem_singleton.1 h2 with rfl
        intro he
        apply hdni
        rw [← show p.1 = d from he]
        exact List.mem_map_of_mem Prod.fst hp
    have ih := qdaScanAux_fixed_phase fs' (acc ++ [(d, v)]) sav (n + 1) tail hacc' hnd'
    have hone : ((some (Shape.fixed [v]) : Option Shape).bind One) = some v := rfl
    have e1 : acc ++ [(d, v)] ++ fs' = acc ++ (d, v) :: fs' := by simp
    have e2 : n + 1 + fs'.length = n + ((d, v) :: fs').length := by simp; omega
    simp only [List.map_cons, List.cons_append, qdaScanAux, fixedEntry, hone, hany,
      Bool.false_eq_true, if_false, List.append_eq]
    rw [ih, e1, e2]

theorem qdaScanAux_save_phase :
    ∀ (ss : List (Direction × List String)) (filt : List (Direction × Ref))
      (sav : List (Direction × List String)) (n : Nat),
      (∀ p ∈ ss, ∀ q ∈ sav, p.1 ≠ q.1) → (ss.map Prod.fst).Nodup →
      qdaScanAux filt sav n (ss.map saveEntry) = some (filt, sav ++ ss, n + ss.length)
  | [], filt, sav, n, _, _ => by simp [qdaScanAux]
  | (d, ts) :: ss', filt, sav, n, hsav, hnd => by
    have hnd' : (ss'.map Prod.fst).Nodup := (List.nodup_cons.1 hnd).2
    have hdni : d ∉ ss'.map Prod.fst := (List.nodup_cons.1 hnd).1
    have hfresh : ∀ q ∈ sav, q.1 ≠ d := by
      intro q hq
      exact fun he => (hsav (d, ts) (List.mem_cons_self _ _) q hq) he.symm
    have hsav' : ∀ p ∈ ss', ∀ q ∈ sav ++ [(d, ts)], p.1 ≠ q.1 := by
      intro p hp q hq
      rcases List.mem_append.1 hq with h1 | h2
      · exact hsav p (List.mem_cons_of_mem _ hp) q h1
      · rcases List.mem_singleton.1 h2 with rfl
        intro he
        apply hdni
        rw [← show p.1 = d from he]
        exact List.mem_map_of_mem Prod.fst hp
    have ih := qdaScanAux_save_phase ss' filt (sav ++ [(d, ts)]) (n + 1) hsav' hnd'
    have hone : ((some (Shape.save .allNodes ts) : Option Shape).bind One) = none := rfl
    have e1 : sav ++ [(d, ts)] ++ ss' = sav ++ (d, ts) :: ss' := by simp
    have e2 : n + 1 + ss'.length = n + ((d, ts) :: ss').length := by simp; omega
    simp only [List.map_cons, qdaScanAux, saveEntry, hone, List.append_eq]
    rw [saveUpdate_fresh d ts sav hfresh, ih, e1, e2]

/-- When the single-filter collapse of C5 does not apply, `QuadDirection.
Optimize` runs the fusion loop over the (stable) filter list. -/
theorem optimizeF_quadDirection_fallback (b : Backend) (f : Nat) (dir : Direction)
    (l : List (Direction × Option Shape))
    (hstab : quadsOptimizeList (optimizeF b f) l = some (l, false))
    (h : l.length = 1 → l.map Prod.fst ≠ [dir]) :
    optimizeF b (f + 2) (.quadDirection dir (.quads l))
      = (match qdaScanAux [] [] 0 l with
         | none => (.quadDirection dir (.quads l), false)
         | some (filt, sav, n) =>
           if n = l.length then (.quadsAct dir sav filt, true)
           else (.quadDirection dir (.quads l), false)) := by
  rcases l with _ | ⟨⟨d1, vs⟩, rest⟩
  · simp [optimizeF, Shape.IsNull, hstab, qdaScanAux]
  · rcases rest with _ | ⟨p2, more⟩
    · have hd1 : ¬(d1 = dir) := by
        intro he
        exact h (by simp) (by simp [he])
      simp [optimizeF, Shape.IsNull, hstab, hd1]
    · simp [optimizeF, Shape.IsNull, hstab]

/-- The optimizer side of quad fusion: with pairwise distinct directions,
nonempty save tags, and the single-filter collapse not applicable, the
`QuadDirection` over the explicit filter list rewrites to `QuadsAct` whose
filter map holds the constant filters and whose save map holds the tag
saves, both in filter order. -/
theorem quadFusion_optimize (b : Backend) (f : Nat) (r : Direction)
    (fs : List (Direction × Ref)) (ss : List (Direction × List String))
    (hdirs : (fs.map Prod.fst ++ ss.map Prod.fst).Nodup)
    (hts : ∀ p ∈ ss, p.2 ≠ ([] : List String))
    (hcol : (quadFusionList fs ss).length = 1 → (quadFusionList fs ss).map Prod.fst ≠ [r]) :
    optimizeF b (f + 2) (.quadDirection r (.quads (quadFusionList fs ss)))
      = (.quadsAct r ss fs, true) := by
  have hstab : quadsOptimizeList (optimizeF b f) (quadFusionList fs ss)
      = some (quadFusionList fs ss, false) :=
    quadsOptimizeList_stable _ _ (fusion_values_stable b f fs ss hts)
  have hfs : (fs.map Prod.fst).Nodup := (List.nodup_append.1 hdirs).1
  have hss : (ss.map Prod.fst).Nodup := (List.nodup_append.1 hdirs).2.1
  have hscan : qdaScanAux [] [] 0 (quadFusionList fs ss)
      = some (fs, ss, fs.length + ss.length) := by
    rw [quadFusionList, qdaScanAux_fixed_phase fs [] [] 0 _ (by simp) hfs]
    simpa using qdaScanAux_save_phase ss fs [] fs.length (by simp) hss
  rw [optimizeF_quadDirection_fallback b f r _ hstab hcol, hscan]
  simp [quadFusionList]

end CayleyShape

namespace CayleyShape

theorem buildFilterList_fixed (b : Backend) :
    ∀ (fs : List (Direction × Ref)) (tail : List (Direction × Option Shape)),
      buildFilterList b (fs.map fixedEntry ++ tail)
        = (buildFilterList b tail).map fun l => (fs.map fun p => It.quadIt p.1 p.2) ++ l
  | [], tail => by
    rcases h : buildFilterList b tail with e | l <;> simp [h, Except.map]
  | (d, v) :: fs', tail => by
    have ih := buildFilterList_fixed b fs' tail
    simp only [List.map_cons, List.cons_append, buildFilterList, fixedEntry, quadFilterBuild,
      One, List.append_eq]
    rw [ih]
    rcases h : buildFilterList b tail with e | l <;>
      simp [Except.map, Bind.bind, Except.bind, Pure.pure, Except.pure]

theorem buildFilterList_save (b : Backend) :
    ∀ ss : List (Direction × List String),
      buildFilterList b (ss.map saveEntry) = rebuildSaveIts ss
  | [] => rfl
  | (d, ts) :: ss' => by
    have ih := buildFilterList_save b ss'
    by_cases hd : d = Direction.any
    · simp [buildFilterList, saveEntry, quadFilterBuild, One, rebuildSaveIts, hd,
        Bind.bind, Except.bind]
    · simp only [List.map_cons, buildFilterList, saveEntry, quadFilterBuild, One, hd,
        if_false, rebuildSaveIts]
      rw [ih]
      rcases h : rebuildSaveIts ss' with e | l <;>
        by_cases hts : ts = ([] : List String) <;>
          simp [buildIterator, Shape.IsNull, hts, Bind.bind, Except.bind, Pure.pure, Except.pure]

end CayleyShape

namespace CayleyShape

theorem buildIterator_quads_ne (b : Backend) (L : List (Direction × Option Shape)) (hL : L ≠ []) :
    buildIterator b (.quads L)
      = (do
        let its ← buildFilterList b L
        match its with
        | [x] => pure x
        | _ => pure (It.andIt its)) := by
  rcases L with _ | ⟨p, L'⟩
  · exact absurd rfl hL
  · simp [buildIterator]

/-- The iterator side of quad fusion: `QuadsAct.BuildIterator` reconstructs
the explicit `QuadDirection`-over-`Quads` tree (constant filters first, then
tag saves, as in the fused filter list) and builds exactly the same
iterator. -/
theorem quadsAct_build_eq (b : Backend) (r : Direction) (fs : List (Direction × Ref))
    (ss : List (Direction × List String)) :
    buildIterator b (.quadsAct r ss fs)
      = buildIterator b (.quadDirection r (.quads (quadFusionList fs ss))) := by
  have hb : buildFilterList b (quadFusionList fs ss) = rebuildIts fs ss := by
    rw [quadFusionList, buildFilterList_fixed b fs (ss.map saveEntry), buildFilterList_save b ss,
      rebuildIts]
    rcases rebuildSaveIts ss with e | l <;>
      simp [Except.map, Bind.bind, Except.bind, Pure.pure, Except.pure]
  rcases fs with _ | ⟨f1, fs'⟩ <;> rcases ss with _ | ⟨s1, ss'⟩
  · simp [buildIterator, quadFusionList, Shape.IsNull, Bind.bind, Except.bind,
      Pure.pure, Except.pure]
  all_goals
    simp only [buildIterator, Shape.IsNull, Bool.false_eq_true, if_false, quadFusionList,
      List.map_cons, List.map_nil, List.nil_append, List.append_nil, List.cons_append]
      at hb ⊢
  all_goals rw [hb]

/-- C6 (confirmed): quad fusion.  For a `QuadDirection` with result direction
`r` over a `Quads` list whose filters are each a singleton `Fixed` or a
`Save` over `AllNodes` with (nonempty) tags, with pairwise distinct filter
directions and the single-filter collapse of C5 not applicable, the optimizer
rewrites the subtree to `QuadsAct{result = r}` whose filter map sends each
fixed-filter direction to its ref and whose save map sends each save-filter
direction to its tags; and the `QuadsAct` form builds the same iterator as
the explicit `QuadDirection`-over-`Quads` tree it replaced. -/
theorem c6_quad_fusion (b : Backend) (f : Nat) (r : Direction)
    (fs : List (Direction × Ref)) (ss : List (Direction × List String))
    (hdirs : (fs.map Prod.fst ++ ss.map Prod.fst).Nodup)
    (hts : ∀ p ∈ ss, p.2 ≠ ([] : List String))
    (hcol : (quadFusionList fs ss).length = 1 → (quadFusionList fs ss).map Prod.fst ≠ [r]) :
    optimizeF b (f + 2) (.quadDirection r (.quads (quadFusionList fs ss)))
      = (.quadsAct r ss fs, true)
    ∧ buildIterator b (.quadsAct r ss fs)
      = buildIterator b (.quadDirection r (.quads (quadFusionList fs ss))) :=
  ⟨quadFusion_optimize b f r fs ss hdirs hts hcol, quadsAct_build_eq b r fs ss⟩

theorem c6_quad_fusion_witness :
    optimizeF b0 2
        (.quadDirection .subject (.quads (quadFusionList [(.predicate, 5)] [(.object, ["o"])])))
      = (.quadsAct .subject [(.object, ["o"])] [(.predicate, 5)], true)
    ∧ buildIterator b0 (.quadsAct .subject [(.object, ["o"])] [(.predicate, 5)])
      = buildIterator b0
          (.quadDirection .subject (.quads (quadFusionList [(.predicate, 5)] [(.object, ["o"])]))) :=
  c6_quad_fusion b0 0 .subject [(.predicate, 5)] [(.object, ["o"])]
    (by decide) (by decide) (by decide)

end CayleyShape

namespace CayleyShape

theorem insertByKey_perm {α : Type} (key : α → String) (x : α) :
    ∀ l : List α, List.Perm (insertByKey key x l) (x :: l)
  | [] => List.Perm.refl _
  | y :: rest => by
    unfold insertByKey
    by_cases h : key x < key y
    · simp [h]
    · simp only [h, if_false]
      exact ((insertByKey_perm key x rest).cons y).trans (List.Perm.swap x y rest)

theorem sortByKey_perm {α : Type} (key : α → String) :
    ∀ l : List α, List.Perm (sortByKey key l) l
  | [] => List.Perm.refl _
  | x :: rest => by
    unfold sortByKey
    exact (insertByKey_perm key x (sortByKey key rest)).trans ((sortByKey_perm key rest).cons x)

theorem insertByKey_pairwise {α : Type} (key : α → String) (x : α) :
    ∀ l : List α, l.Pairwise (fun a c => key a ≤ key c) →
      (insertByKey key x l).Pairwise (fun a c => key a ≤ key c)
  | [], _ => by simp [insertByKey]
  | y :: rest, h => by
    rw [List.pairwise_cons] at h
    unfold insertByKey
    by_cases hxy : key x < key y
    · rw [if_pos hxy, List.pairwise_cons]
      refine ⟨?_, List.pairwise_cons.2 h⟩
      intro z hz
      rcases List.mem_cons.1 hz with rfl | hz
      · exact le_of_lt hxy
      · exact (le_of_lt hxy).trans (h.1 z hz)
    · rw [if_neg hxy, List.pairwise_cons]
      refine ⟨?_, insertByKey_pairwise key x rest h.2⟩
      intro z hz
      have hz' : z ∈ x :: rest := (insertByKey_perm key x rest).mem_iff.1 hz
      rcases List.mem_cons.1 hz' with rfl | hz2
      · exact le_of_not_lt hxy
      · exact h.1 z hz2

theorem sortByKey_pairwise {α : Type} (key : α → String) :
    ∀ l : List α, (sortByKey key l).Pairwise (fun a c => key a ≤ key c)
  | [] => by simp [sortByKey]
  | x :: rest => by
    unfold sortByKey
    exact insertByKey_pairwise key x _ (sortByKey_pairwise key rest)

theorem legacyCollect_noerr (key : Ref × TagMap → String) :
    ∀ (l acc : List (Ref × TagMap)) (i : Nat),
      legacyCollect key none acc i l = (sortByKey key (acc ++ l), none)
  | [], acc, i => by simp [legacyCollect]
  | x :: rest, acc, i => by
    have ih := legacyCollect_noerr key rest (acc ++ [x]) (i + 1)
    simp only [legacyCollect, errAfter, ih]
    simp

theorem drainSteps_sortStepLegacy (b : Backend) (sub : SubIt) :
    ∀ (fuel : Nat) (v : List (Ref × TagMap)) (e : Option String) (i : Nat),
      drainSteps (sortStepLegacy b sub) fuel ⟨some v, e, i⟩ = (v.drop i).take fuel
  | 0, v, e, i => by simp [drainSteps]
  | fuel + 1, v, e, i => by
    by_cases h : i < v.length
    · have hd : v.drop i = v.getD i (0, []) :: v.drop (i + 1) := by
        rw [List.getD_eq_getElem v _ h]
        exact List.drop_eq_getElem_cons h
      have hstep : sortStepLegacy b sub ⟨some v, e, i⟩
          = (some (v.getD i (0, [])), ⟨some v, e, i + 1⟩) := by
        simp [sortStepLegacy, h]
      simp only [drainSteps, hstep, drainSteps_sortStepLegacy b sub fuel v e (i + 1)]
      rw [hd]
      simp
    · have hd : v.drop i = [] := List.drop_eq_nil_of_le (le_of_not_lt h)
      have hstep : sortStepLegacy b sub ⟨some v, e, i⟩ = (none, ⟨some v, e, i⟩) := by
        simp [sortStepLegacy, h]
      simp only [drainSteps, hstep]
      rw [hd]
      simp

theorem sortScanLegacy_eq (b : Backend) (sub : SubIt) (herr : sub.errAt = none) :
    sortScanLegacy b sub = sortByKey (fun x => b.nameOf x.1) sub.results := by
  have hg : getSortedValuesLegacy b sub
      = (sortByKey (fun x => b.nameOf x.1) sub.results, none) := by
    rw [getSortedValuesLegacy, herr, legacyCollect_noerr]
    simp
  have hstep : sortStepLegacy b sub sortInit
      = sortStepLegacy b sub ⟨some (sortByKey (fun x => b.nameOf x.1) sub.results), none, 0⟩ := by
    simp [sortStepLegacy, sortInit, hg]
  have hsame : sortScanLegacy b sub
      = drainSteps (sortStepLegacy b sub) (sub.results.length + 1)
          ⟨some (sortByKey (fun x => b.nameOf x.1) sub.results), none, 0⟩ := by
    rw [sortScanLegacy]
    conv_lhs => rw [drainSteps, hstep]
    conv_rhs => rw [drainSteps]
  have hlen : (sortByKey (fun x => b.nameOf x.1) sub.results).length = sub.results.length :=
    (sortByKey_perm _ _).length_eq
  rw [hsame, drainSteps_sortStepLegacy]
  simp [List.take_of_length_le, hlen]

/-- C7 (confirmed): when the subiterator reports no backend error, the Sort
iterator of `src/graph/iterator/sort.go` yields its results in monotone
non-decreasing order of the string rendering of each result's value as
resolved through the backend's `NameOf`, and the refs it yields are exactly
the subiterator's refs (as a multiset). -/
theorem c7_sort_sorted (b : Backend) (sub : SubIt) (herr : sub.errAt = none) :
    (sortScanLegacy b sub).Pairwise (fun x y => b.nameOf x.1 ≤ b.nameOf y.1)
    ∧ List.Perm ((sortScanLegacy b sub).map Prod.fst) (sub.results.map Prod.fst) := by
  rw [sortScanLegacy_eq b sub herr]
  exact ⟨sortByKey_pairwise _ _, (sortByKey_perm _ _).map Prod.fst⟩

theorem c7_sort_sorted_witness :
    (sortScanLegacy bNames ⟨[(1, []), (2, [])], none⟩).Pairwise
        (fun x y => bNames.nameOf x.1 ≤ bNames.nameOf y.1)
    ∧ List.Perm ((sortScanLegacy bNames ⟨[(1, []), (2, [])], none⟩).map Prod.fst)
        (([(1, []), (2, [])] : List (Ref × TagMap)).map Prod.fst) :=
  c7_sort_sorted bNames ⟨[(1, []), (2, [])], none⟩ rfl

/-- C8, counterexample: in the legacy Sort iterator
(`src/graph/iterator/sort.go`), the first `Next` latches the backend error
(`Err()` exposes it), yet the following `Next` — a call made after the error
is latched — still returns true and yields a buffered result, contradicting
"every subsequent next call on that iterator returns false ... or yielding
further results". -/
theorem c8_counterexample :
    ((sortStepLegacy b0 subErr sortInit).2.err = some "backend failure")
    ∧ ((sortStepLegacy b0 subErr (sortStepLegacy b0 subErr sortInit).2).1 = some (2, [])) :=
  ⟨rfl, rfl⟩

/-- C8, amended: backend errors are latched into the iterator-local error
field and exposed by `Err()`.  In the Scanner-based sort iterator
(part_006), every call after the latch returns false immediately and leaves
the state — hence the subiterator — untouched, and the very call that
latches a fresh error already returns false.  (The legacy Sort iterator of
sort.go instead keeps yielding the already-buffered results, as the
counterexample shows.) -/
theorem c8_error_latch (b : Backend) (sub : SubIt) :
    (∀ (st : SortNextState) (e : String), st.err = some e → sortNextStep b sub st = (none, st))
    ∧ (∀ (k : Nat) (er : String), sub.errAt = some (k, er) → k ≤ sub.results.length →
        (sortNextStep b sub sortNextInit).1 = none
        ∧ (sortNextStep b sub sortNextInit).2.err = some er) := by
  constructor
  · intro st e h
    simp [sortNextStep, h]
  · intro k er hk hle
    have hg : getSortedValuesNew b sub = (sub.results, some er) := by
      simp [getSortedValuesNew, errAfter, hk, hle]
    simp [sortNextStep, sortNextInit, hg]

theorem c8_error_latch_witness :
    sortNextStep b0 subErr ⟨some [], some "x", 0, -1⟩ = (none, ⟨some [], some "x", 0, -1⟩)
    ∧ (sortNextStep b0 subErr sortNextInit).1 = none
    ∧ (sortNextStep b0 subErr sortNextInit).2.err = some "backend failure" :=
  ⟨(c8_error_latch b0 subErr).1 ⟨some [], some "x", 0, -1⟩ "x" rfl,
   ((c8_error_latch b0 subErr).2 2 "backend failure" rfl (by decide)).1,
   ((c8_error_latch b0 subErr).2 2 "backend failure" rfl (by decide)).2⟩

theorem drainSteps_orderStep :
    ∀ (fuel : Nat) (l : List (Ref × TagMap)) (i : Nat),
      drainSteps orderStep fuel ⟨l, i⟩ = (l.drop (i + 1)).take fuel
  | 0, l, i => by simp [drainSteps]
  | fuel + 1, l, i => by
    by_cases h : i < l.length - 1
    · have h1 : i + 1 < l.length := by omega
      have hd : l.drop (i + 1) = l.getD (i + 1) (0, []) :: l.drop (i + 2) := by
        rw [List.getD_eq_getElem l _ h1]
        exact List.drop_eq_getElem_cons h1
      simp [drainSteps, orderStep, h, hd, drainSteps_orderStep fuel l (i + 1)]
    · have h1 : l.length ≤ i + 1 := by omega
      have hd : l.drop (i + 1) = [] := List.drop_eq_nil_of_le h1
      simp [drainSteps, orderStep, h, hd]

/-- C10 (confirmed): for a subiterator with n ≥ 1 results, the Order iterator
of `src/graph/iterator/order.go` yields exactly the sorted buffer with its
first element dropped: `Next` succeeds exactly n - 1 times and the element
that sorts first (position 0 of the sorted buffer) is never yielded — in
particular, for a single-result subiterator, Order yields nothing.  (With
duplicate values an equal value may of course still appear at a later
position.) -/
theorem c10_order_skips_first (b : Backend) (sub : SubIt) (h : sub.results ≠ []) :
    orderScan b sub = (getOrderedValues b sub).tail
    ∧ (orderScan b sub).length = sub.results.length - 1 := by
  have hlen : (getOrderedValues b sub).length = sub.results.length :=
    (sortByKey_perm _ _).length_eq
  have h1 : orderScan b sub
      = ((getOrderedValues b sub).drop 1).take (sub.results.length + 1) := by
    rw [orderScan]
    exact drainSteps_orderStep _ _ 0
  have h2 : ((getOrderedValues b sub).drop 1).length ≤ sub.results.length + 1 := by
    simp only [List.length_drop, hlen]
    omega
  constructor
  · rw [h1, List.take_of_length_le h2, List.drop_one]
  · rw [h1, List.take_of_length_le h2]
    simp [hlen]

theorem c10_order_skips_first_witness :
    orderScan bNames ⟨[(1, [])], none⟩ = (getOrderedValues bNames ⟨[(1, [])], none⟩).tail
    ∧ (orderScan bNames ⟨[(1, [])], none⟩).length
        = (([(1, [])] : List (Ref × TagMap)).length - 1) :=
  c10_order_skips_first bNames ⟨[(1, [])], none⟩ (by simp)

/-- C9, counterexample: a `Quads` shape containing a quad filter with
direction `Any` whose values are a singleton `Fixed` is *not* rejected at
build time — the backend is queried with direction `Any` — nor at optimize
time (no direction check exists in the optimizer). -/
theorem c9_counterexample :
    buildIterator b0 (.quads [(.any, some (.fixed [5]))]) = .ok (.quadIt .any 5)
    ∧ optimizeF b0 9 (.quads [(.any, some (.fixed [5]))])
      = (.quads [(.any, some (.fixed [5]))], false) := by
  constructor
  · simp [buildIterator, buildFilterList, quadFilterBuild, One,
      Bind.bind, Except.bind, Pure.pure, Except.pure]
  · simp [optimizeF, quadsOptimizeList]

/-- C9, amended: the `Any`-direction panic fires at build time for a quad
filter whose values are present and not a singleton `Fixed`, and for a
`QuadDirection` over non-Null quads (after its subiterator builds); but a
quad filter with direction `Any` whose values are a singleton `Fixed` is
passed to the backend unchecked. -/
theorem c9_any_direction (b : Backend) :
    (∀ vs : Shape, One vs = none →
        quadFilterBuild b .any (some vs) = .error "direction is not set")
    ∧ (∀ (q : Shape) (i : It), q ≠ .null → buildIterator b q = .ok i →
        buildIterator b (.quadDirection .any q) = .error "direction is not set")
    ∧ (∀ v : Ref, quadFilterBuild b .any (some (.fixed [v])) = .ok (.quadIt .any v)) := by
  refine ⟨?_, ?_, ?_⟩
  · intro vs hone
    simp [quadFilterBuild, hone]
  · intro q i hq hb
    have h1 : q.IsNull = false := IsNull_eq_false hq
    simp [buildIterator, h1, hb, Bind.bind, Except.bind]
  · intro v
    simp [quadFilterBuild, One]

theorem c9_any_direction_witness :
    quadFilterBuild b0 .any (some .allNodes) = .error "direction is not set"
    ∧ buildIterator b0 (.quadDirection .any .allNodes) = .error "direction is not set"
    ∧ quadFilterBuild b0 .any (some (.fixed [5])) = .ok (.quadIt .any 5) :=
  ⟨(c9_any_direction b0).1 .allNodes rfl,
   (c9_any_direction b0).2.1 .allNodes .allNodesIt (fun h => Shape.noConfusion h)
     (by simp [buildIterator]),
   (c9_any_direction b0).2.2 5⟩

end CayleyShape

namespace CayleyShape

/-! Validation against the repository's own `TestOptimize` cases. -/

example :
    optimizeF bLookup 9 (.intersect [
      .quads [(.subject, some (.lookup ["bob"]))],
      .quads [(.object, some (.lookup ["alice"]))]])
    = (.quads [(.subject, some (.fixed [1])), (.object, some (.fixed [2]))], true) := by
  simp [optimizeF, intersectPass1, intersectPass2, finishIntersect, quadsOptimizeList,
    lookupResolve, bLookup, Shape.IsNull]

example :
    optimizeF b0 20 (.intersect [.quads [(.subject, some (.optional (.union [.unique
      (.quadDirection .predicate (.intersect [.quads [(.object, some (.lookup ["no"]))]]))])))]])
    = (.null, true) := by
  simp [optimizeF, intersectPass1, intersectPass2, finishIntersect, quadsOptimizeList,
    lookupResolve, b0, unionPass1, unionPass2, Shape.IsNull]

example :
    optimizeF b0 9 (.quadDirection .subject (.quads [(.subject, some (.fixed [1]))]))
      = (.fixed [1], true) := by
  simp [optimizeF, quadsOptimizeList, Shape.IsNull]

example :
    optimizeF b0 9 (.intersect [.allNodes, .fixed [1], .save .allNodes ["all"], .fixed [2]])
      = (.intersect [.fixed [1, 2], .save .allNodes ["all"]], true) := by
  simp [optimizeF, intersectPass1, intersectPass2, finishIntersect, Shape.IsNull]

end CayleyShape
